import Mathlib

/-!
Verification development for the MediaVideoTools x265 conversion
orchestrator (src/mediavideotools/video_convert_x265.py, together with
src/utils.py and src/mkv_metadata.py).

The embedding is a shallow model of the Python source:

* Filename manipulation (pathlib.Path stem, suffix, suffixes, with_stem,
  with_suffix and the substring tests used by the scanner) is modelled on
  the final path component, as total string functions following CPython
  3.9 pathlib semantics.  Every rename done by the program only touches
  the final component, so the component string is the faithful unit of
  modelling.
* File sizes are exact rationals (MB); Python round(x, 2) is modelled as
  exact half-even rounding of the rational to hundredths.
* Filesystem state is an association list from component names to file
  records (size, embedded tag block, access and modification times, an
  abstract content id).  External tools (ffmpeg, mkvpropedit) and OS
  failures are oracles passed explicitly; an uncaught Python exception is
  an Option-none result.
* The scanner's root tree is an inductive tree whose sibling lists carry
  the unspecified enumeration order of os.walk; an explicit reordering
  oracle models that the OS may enumerate entries in any order.
* The orchestrator loop threads the module-level main_loop_running flag;
  reads of the flag at the top of each iteration are modelled by an
  explicit sequence of boolean read values, since the two concurrent
  writers (signal handler, socket listener) may clear it between reads.
-/

namespace MediaVideoTools

/-! ### Constants from video_convert_x265.py -/

/-- Constant FILENAME_EXTENSION (line 114). -/
def FILENAME_EXTENSION : String := ".mkv"

/-- Constant FILENAME_MARKER_X265 (line 116). -/
def FILENAME_MARKER_X265 : String := "_x265"

/-- Constant FILENAME_MARKER_NOGAIN (line 118). -/
def FILENAME_MARKER_NOGAIN : String := "_x265nogain"

/-- Constant FILENAME_POSTFIX_DONE (line 120). -/
def FILENAME_POSTFIX_DONE : String := ".x265done"

/-- Constant FILENAME_EXTENSIONS_BLACKLIST (lines 122-123). -/
def FILENAME_EXTENSIONS_BLACKLIST : List String :=
  [".rar", ".par2", ".zip", ".jpg", ".jpeg", ".nfo", ".srt", ".idx", ".sub", ".style"]

/-- Constant MKV_METADATA_X265NOGAIN (line 127). -/
def MKV_METADATA_X265NOGAIN : String := "x265_no_gain"

/-- Constant CONVERT_CMD_TEMPLATE (line 105). -/
def CONVERT_CMD_TEMPLATE : String :=
  "ffmpeg -n -hide_banner -i \"${input}\" -map 0 -c:s copy -c:v hevc_nvenc ${additional} \"${output}\""

/-! ### CPython 3.9 pathlib name semantics (on the final path component) -/

/-- Index of the last occurrence of a dot in a character list; CPython
str.rfind of a single dot character, as an Option. -/
def lastDotPos : List Char → Option Nat
  | [] => none
  | c :: rest =>
    match lastDotPos rest with
    | some i => some (i + 1)
    | none => if c = '.' then some 0 else none

/-- PurePath.suffix on the final component, CPython 3.9: the part of the
name from the last dot on, when that dot is neither the first nor the
last character; empty otherwise. -/
def pySuffixL (l : List Char) : List Char :=
  match lastDotPos l with
  | some i => if 0 < i ∧ i < l.length - 1 then l.drop i else []
  | none => []

/-- PurePath.stem on the final component: the name with pySuffixL removed. -/
def pyStemL (l : List Char) : List Char :=
  match lastDotPos l with
  | some i => if 0 < i ∧ i < l.length - 1 then l.take i else l
  | none => l

/-- Splitting a character list at every dot; CPython str.split at a dot. -/
def splitOnDot : List Char → List (List Char)
  | [] => [[]]
  | '.' :: rest => [] :: splitOnDot rest
  | c :: rest =>
    match splitOnDot rest with
    | g :: gs => (c :: g) :: gs
    | [] => [[c]]

/-- PurePath.suffixes on the final component, CPython 3.9: empty when the
name ends with a dot, otherwise all dot-separated groups after stripping
leading dots, each with its dot re-attached. -/
def pySuffixesL (l : List Char) : List (List Char) :=
  if l.getLast? = some '.' then []
  else ((splitOnDot (l.dropWhile (· = '.'))).tail).map (fun s => '.' :: s)

/-- String wrapper for pySuffixL. -/
def pySuffix (s : String) : String := ⟨pySuffixL s.data⟩

/-- String wrapper for pyStemL. -/
def pyStem (s : String) : String := ⟨pyStemL s.data⟩

/-- String wrapper for pySuffixesL. -/
def pySuffixes (s : String) : List String := (pySuffixesL s.data).map (⟨·⟩)

/-- PurePath.with_stem on the final component: the new stem followed by
the old suffix. -/
def pyWithStem (s newStem : String) : String := newStem ++ pySuffix s

/-- PurePath.with_suffix on the final component: the stem followed by the
new suffix. -/
def pyWithSuffix (s newSuffix : String) : String := pyStem s ++ newSuffix

/-- Decidable test that the second character list starts with the first. -/
def beginsWith : List Char → List Char → Bool
  | [], _ => true
  | _ :: _, [] => false
  | a :: as, b :: bs => a = b && beginsWith as bs

/-- Decidable substring test backing the Python str containment operator. -/
def containsSub (needle : List Char) : List Char → Bool
  | [] => needle.isEmpty
  | c :: rest => beginsWith needle (c :: rest) || containsSub needle rest

/-- Python substring containment (needle in haystack) for strings. -/
def pyIn (needle haystack : String) : Bool := containsSub needle.data haystack.data

/-- Python str.endswith for strings. -/
def pyEndsWith (s pat : String) : Bool := beginsWith pat.data.reverse s.data.reverse

/-- Python lexicographic string comparison (less-or-equal by code point),
on character lists; list.sort() of filename strings orders by this. -/
def lexLe : List Char → List Char → Bool
  | [], _ => true
  | _ :: _, [] => false
  | a :: as, b :: bs =>
    if a.toNat < b.toNat then true
    else if b.toNat < a.toNat then false
    else lexLe as bs

/-! ### Filename rules of video_convert_x265.py -/

/-- Separator class of the legacy-codec regex: space, dot, underscore or
hyphen. -/
def isSepChar (c : Char) : Bool := c = ' ' || c = '.' || c = '_' || c = '-'

/-- Letter class of the legacy-codec regex: x, h or H. -/
def isXHChar (c : Char) : Bool := c = 'x' || c = 'h' || c = 'H'

/-- Model of re.sub for the fixed five-character legacy-codec pattern of a
separator, then x or h or H, then the digits 264: leftmost scan with
non-overlapping removal of every match, empty replacement. -/
def subX264 : List Char → List Char
  | a :: b :: '2' :: '6' :: '4' :: rest =>
    if isSepChar a && isXHChar b then subX264 rest
    else a :: subX264 (b :: '2' :: '6' :: '4' :: rest)
  | a :: rest => a :: subX264 rest
  | [] => []

/-- Decidable test for an occurrence of the legacy-codec pattern. -/
def hasX264Match : List Char → Bool
  | a :: b :: '2' :: '6' :: '4' :: rest =>
    (isSepChar a && isXHChar b) || hasX264Match (b :: '2' :: '6' :: '4' :: rest)
  | _ :: rest => hasX264Match rest
  | [] => false

/-- ConversionCommand.eliminate_x264 (lines 187-190): replace the stem by
the stem with every legacy-codec marker removed, keeping the suffix. -/
def eliminate_x264 (name : String) : String :=
  pyWithStem name ⟨subX264 (pyStem name).data⟩

/-- Function __check_has_mark (lines 224-225): marker substring test on
the file name. -/
def check_has_mark (name marker : String) : Bool := pyIn marker name

/-- Function __check_is_donefile (lines 220-221): done-suffix membership
in the name's suffix list. -/
def check_is_donefile (name : String) : Bool :=
  decide (FILENAME_POSTFIX_DONE ∈ pySuffixes name)

/-- Function __check_is_blacklisted (lines 234-235): final suffix in the
extension blacklist. -/
def check_is_blacklisted (name : String) : Bool :=
  decide (pySuffix name ∈ FILENAME_EXTENSIONS_BLACKLIST)

/-- Function _build_filename_with_marker (lines 238-246): return the name
unchanged when it already contains the marker, otherwise append the
marker to the stem and, when a target extension is requested and the
resulting suffix does not already end with it, force that extension. -/
def build_filename_with_marker (name marker : String) (target_ext : Option String) : String :=
  if check_has_mark name marker then name
  else
    let marked := pyWithStem name (pyStem name ++ marker)
    match target_ext with
    | none => marked
    | some ext => if !(pyEndsWith (pySuffix marked) ext) then pyWithSuffix marked ext else marked

/-- Function _get_done_filename (lines 228-231): append the done postfix
to the full suffix chain unless it is already present. -/
def get_done_filename (name : String) : String :=
  if check_is_donefile name then name
  else pyWithSuffix name (pySuffix name ++ FILENAME_POSTFIX_DONE)

/-- Method ConversionCommand.get_filepath_new (lines 163-169): the x265
marker plus target extension naming rule followed by the legacy-codec
cleanup. -/
def get_filepath_new (name : String) : String :=
  eliminate_x264 (build_filename_with_marker name FILENAME_MARKER_X265 (some FILENAME_EXTENSION))

/-! ### File sizes (src/utils.py, get_file_size_mb, lines 9-22) -/

/-- Half-even integer rounding of a rational, the tie rule of Python
round. -/
def roundHalfEven (q : ℚ) : ℤ :=
  if q - ⌊q⌋ < 1/2 then ⌊q⌋
  else if 1/2 < q - ⌊q⌋ then ⌊q⌋ + 1
  else if ⌊q⌋ % 2 = 0 then ⌊q⌋ else ⌊q⌋ + 1

/-- Python round(x, 2) as exact rounding of a rational to hundredths. -/
def pyRound2 (q : ℚ) : ℚ := (roundHalfEven (q * 100) : ℚ) / 100

/-- Function get_file_size_mb (src/utils.py lines 9-22): minus one when
the stat probe fails (broken symlink or OSError), otherwise the byte size
divided by 1024 twice and rounded to two decimals.  The stat outcome is
the Option argument. -/
def get_file_size_mb (stat : Option Nat) : ℚ :=
  match stat with
  | none => -1
  | some sizeBytes => pyRound2 ((sizeBytes : ℚ) / 1024 / 1024)

/-! ### Filesystem state for the conversion step -/

/-- Snapshot of one file: byte size, embedded global tag block, access
and modification times in nanoseconds, and an abstract content id. -/
structure FileRec where
  sizeBytes : Nat
  tags : List (String × String)
  atimeNs : Nat
  mtimeNs : Nat
  contentId : Nat
deriving DecidableEq

/-- Filesystem state for one directory: an association list from final
path components to file records. -/
abbrev FsState := List (String × FileRec)

/-- Lookup of a file record by name. -/
def fsLookup : FsState → String → Option FileRec
  | [], _ => none
  | (q, r) :: rest, p => if q = p then some r else fsLookup rest p

/-- Removal of every record under a name. -/
def fsErase : FsState → String → FsState
  | [], _ => []
  | (q, r) :: rest, p => if q = p then fsErase rest p else (q, r) :: fsErase rest p

/-- Creation or replacement of the record under a name. -/
def fsSet (st : FsState) (p : String) (r : FileRec) : FsState := (p, r) :: fsErase st p

/-- Model of os.rename: none (an uncaught FileNotFoundError) when the
source is absent, otherwise the record moves to the destination name,
overwriting it. -/
def fsRename (st : FsState) (src dst : String) : Option FsState :=
  match fsLookup st src with
  | none => none
  | some r => some (fsSet (fsErase st src) dst r)

/-- The size probe of a path against the state, composing stat with
get_file_size_mb: an absent file is a failed stat. -/
def file_size_mb (st : FsState) (p : String) : ℚ :=
  get_file_size_mb ((fsLookup st p).map FileRec.sizeBytes)

/-- Oracles for the external world inside one conversion step: report
write failure and the report's resulting record, os.remove failure on the
failed-conversion cleanup, mkvpropedit success and the times it leaves on
the file it rewrites. -/
structure EffectOracles where
  reportFails : Bool
  reportRec : FileRec
  removeFails : Bool
  tagToolOk : Bool
  toolAtimeNs : Nat
  toolMtimeNs : Nat
deriving DecidableEq

/-! ### MKV metadata (src/mkv_metadata.py) -/

/-- Function mkv_add_metadata_xml (src/mkv_metadata.py lines 85-128):
stat the file (an uncaught FileNotFoundError when absent), let the
external mkvpropedit replace the global tag block (its failure is caught
and logged), then, when keep_times is requested, restore the access and
modification times recorded by the stat taken before the tool ran. -/
def mkv_add_metadata_xml (st : FsState) (filepath : String) (tags : List (String × String))
    (keep_times : Bool) (orcl : EffectOracles) : Option FsState :=
  match fsLookup st filepath with
  | none => none
  | some stats =>
    let written := if orcl.tagToolOk then
        { stats with tags := tags, atimeNs := orcl.toolAtimeNs, mtimeNs := orcl.toolMtimeNs }
      else stats
    let final := if keep_times then
        { written with atimeNs := stats.atimeNs, mtimeNs := stats.mtimeNs }
      else written
    some (fsSet st filepath final)

/-! ### Conversion step (video_convert_x265.py lines 394-549) -/

/-- Enum ConversionProcessResult (lines 394-400). -/
inductive ConversionProcessResult where
  | ORIGINAL_MISSING
  | NOT_SMALLER
  | NON_ZERO
  | OK
deriving DecidableEq

/-- Integer value of each ConversionProcessResult member (lines 397-400). -/
def ConversionProcessResult.code : ConversionProcessResult → ℤ
  | ConversionProcessResult.ORIGINAL_MISSING => -3
  | ConversionProcessResult.NOT_SMALLER => -2
  | ConversionProcessResult.NON_ZERO => -1
  | ConversionProcessResult.OK => 0

/-- The dictionary meta_custom built at lines 482-491, flattened to the
simple-tag list mkv_produce_metadata writes from it; numeric values are
carried as their rendered strings. -/
def meta_custom_tags (origName : String) (file_mb newfile_mb : ℚ)
    (durationStr durationSecondsStr nowStr : String) : List (String × String) :=
  [("original_filename", origName),
   ("original_size_mb", toString file_mb),
   ("newfile_size_mb", toString newfile_mb),
   ("encoding_duration", durationStr),
   ("encoding_duration_seconds", durationSecondsStr),
   ("encoding_template", CONVERT_CMD_TEMPLATE),
   ("encoding_time", nowStr)]

/-- Function _add_metadata_nogain (lines 537-549): extend the custom
metadata with the do-not-retry key, write it onto the original with its
times preserved, then rename the original to its no-gain-marked name. -/
def add_metadata_nogain (st : FsState) (orig : String) (meta : List (String × String))
    (orcl : EffectOracles) : Option FsState :=
  let tags := meta ++ [(MKV_METADATA_X265NOGAIN, "True")]
  match mkv_add_metadata_xml st orig tags true orcl with
  | none => none
  | some st1 => fsRename st1 orig (build_filename_with_marker orig FILENAME_MARKER_NOGAIN none)

/-- The three-way size decision taken at lines 494 and 508 for a zero
exit status: no-gain when the produced size strictly exceeds ninety-five
percent of the original, real gain when it strictly exceeds five percent,
and the fall-through tiny-output case otherwise. -/
inductive ZeroExitBucket where
  | noGain
  | realGain
  | tinyOutput
deriving DecidableEq

/-- Decision function for ZeroExitBucket, transcribing the conditions of
lines 494 and 508. -/
def zeroExitBucket (file_mb newfile_mb : ℚ) : ZeroExitBucket :=
  if file_mb * (95/100) < newfile_mb then ZeroExitBucket.noGain
  else if newfile_mb > file_mb * (5/100) then ZeroExitBucket.realGain
  else ZeroExitBucket.tinyOutput

/-- Cleanup on the failure path (lines 464-472): when the target exists
and keep was not requested, best-effort removal with any OSError caught. -/
def failCleanup (st : FsState) (newP : String) (keep : Bool) (orcl : EffectOracles) : FsState :=
  if (fsLookup st newP).isSome && !keep then
    (if orcl.removeFails then st else fsErase st newP)
  else st

/-- The report-file step of run_conversion_process (lines 452-454 with
_create_report_file, lines 552-565): when requested, write or overwrite
the log file beside the target; an OSError is caught, leaving the state
unchanged. -/
def reportState (st0 : FsState) (orig : String) (create_report : Bool)
    (orcl : EffectOracles) : FsState :=
  if create_report then
    (if orcl.reportFails then st0
     else fsSet st0 (pyWithSuffix (get_filepath_new orig) ".log") orcl.reportRec)
  else st0

/-- Function run_conversion_process (lines 403-534) as a state
transformer.  The proc argument is the supervised process outcome: none
when Popen raised (or the process object was never created), some rc for
an exit status.  A none result models an uncaught exception escaping the
function. -/
def run_conversion_process (st0 : FsState) (orig : String) (proc : Option ℤ)
    (keep create_report : Bool) (durationStr durationSecondsStr nowStr : String)
    (orcl : EffectOracles) : Option (FsState × ConversionProcessResult) :=
  let newP := get_filepath_new orig
  let st := reportState st0 orig create_report orcl
  match proc with
  | none => some (failCleanup st newP keep orcl, ConversionProcessResult.NON_ZERO)
  | some rc =>
    if rc ≠ 0 then some (failCleanup st newP keep orcl, ConversionProcessResult.NON_ZERO)
    else
      let file_mb := file_size_mb st orig
      let newfile_mb := file_size_mb st newP
      let meta := meta_custom_tags orig file_mb newfile_mb durationStr durationSecondsStr nowStr
      match zeroExitBucket file_mb newfile_mb with
      | ZeroExitBucket.noGain =>
        match add_metadata_nogain st orig meta orcl with
        | none => none
        | some st1 =>
          if keep then some (st1, ConversionProcessResult.NOT_SMALLER)
          else
            match fsLookup st1 newP with
            | none => none
            | some _ => some (fsErase st1 newP, ConversionProcessResult.NOT_SMALLER)
      | ZeroExitBucket.realGain =>
        match fsRename st orig (get_done_filename orig) with
        | none => some (st, ConversionProcessResult.ORIGINAL_MISSING)
        | some st1 =>
          match mkv_add_metadata_xml st1 newP
              ([("ENCODER_SETTINGS", CONVERT_CMD_TEMPLATE)] ++ meta) false orcl with
          | none => none
          | some st2 => some (st2, ConversionProcessResult.OK)
      | ZeroExitBucket.tinyOutput => some (st, ConversionProcessResult.OK)

/-! ### Candidate scanning (lines 302-391) -/

/-- Per-file scan facts: the component name together with the oracle
outcomes of the probes the scanner runs on it.  The stat outcome is none
on a failed probe; the is_video outcome is none when the MIME check
raised; mediaParseOk is the MediaInfo.parse outcome; the last two fields
are the metadata classifications when parsing succeeded. -/
structure ScanEntry where
  name : String
  sizeStat : Option Nat
  isVideoR : Option Bool
  mediaParseOk : Bool
  metaIsX265 : Bool
  metaHasDoNot : Bool
deriving DecidableEq

/-- Directory tree for the recursive scan: a name, subdirectories and
files, the sibling lists in unspecified enumeration order. -/
inductive FsTree where
  | node (dirName : String) (subdirs : List FsTree) (files : List ScanEntry)

/-- Name of the root node of a tree. -/
def FsTree.name : FsTree → String
  | FsTree.node n _ _ => n

/-- Reordering by an index list: the model of an OS directory enumeration
handing back entries in an arbitrary order. -/
def reorder {α : Type} (σ : List Nat) (l : List α) : List α :=
  σ.filterMap (fun i => l[i]?)

/-- Sort order of the file batch, Python list.sort() of name strings. -/
def entryLe (a b : ScanEntry) : Prop := lexLe a.name.data b.name.data = true

instance : DecidableRel entryLe := fun _ _ => inferInstanceAs (Decidable (_ = true))

/-- Sort order of the directory batch, Python list.sort() of name
strings. -/
def treeLe (a b : FsTree) : Prop := lexLe a.name.data b.name.data = true

instance : DecidableRel treeLe := fun _ _ => inferInstanceAs (Decidable (_ = true))

/-- The dirs.sort() and files.sort() calls of lines 317-318. -/
def sortFiles (l : List ScanEntry) : List ScanEntry := List.insertionSort entryLe l

/-- Sorting of the subdirectory batch by name, the dirs.sort() call. -/
def sortSubdirs (l : List FsTree) : List FsTree := List.insertionSort treeLe l

/-- The os.walk traversal of find_candidates (lines 316-321): at each
directory, sort the enumerated files and subdirectories by name, emit the
files paired with the directory path, then recurse into the sorted
subdirectories.  The oracles give the OS enumeration order per directory
path and batch length. -/
def walkTree (σd σf : List String → Nat → List Nat) :
    List String → FsTree → List (List String × ScanEntry)
  | path, FsTree.node n subdirs files =>
    (sortFiles (reorder (σf (path ++ [n]) files.length) files)).map
        (fun e => (path ++ [n], e)) ++
      ((sortSubdirs (reorder (σd (path ++ [n]) subdirs.length) subdirs)).attach.map
        (fun t => walkTree σd σf (path ++ [n]) t.1)).flatten
termination_by _ t => sizeOf t
decreasing_by
  simp_wf
  have h1 : t.1 ∈ reorder (σd (path ++ [n]) subdirs.length) subdirs := by
    have hp := List.perm_insertionSort treeLe (reorder (σd (path ++ [n]) subdirs.length) subdirs)
    exact hp.mem_iff.mp t.2
  have h2 : t.1 ∈ subdirs := by
    obtain ⟨i, _, hi⟩ := List.mem_filterMap.mp h1
    exact List.getElem?_mem hi
  have h3 := List.sizeOf_lt_of_mem h2
  omega

/-- The per-file filter chain of find_candidates (lines 320-389), in
source order with first hit excluding the file. -/
def candidateFilter (min_file_size_mb : ℚ) (forceencode skip_mime : Bool)
    (e : ScanEntry) : Bool :=
  if check_is_blacklisted e.name then false
  else if check_has_mark e.name FILENAME_MARKER_X265 then false
  else if check_is_donefile e.name then false
  else if get_file_size_mb e.sizeStat < 0 then false
  else if get_file_size_mb e.sizeStat < min_file_size_mb then false
  else if !skip_mime && !(e.isVideoR.getD false) then false
  else if forceencode then true
  else if !e.mediaParseOk then false
  else if e.metaIsX265 then false
  else if e.metaHasDoNot then false
  else true

/-- Function find_candidates (lines 302-391): the surviving files of the
sorted walk, in traversal order, paired with their directory paths. -/
def find_candidates (σd σf : List String → Nat → List Nat) (rootdir : FsTree)
    (min_file_size_mb : ℚ) (forceencode skip_mime : Bool) :
    List (List String × ScanEntry) :=
  (walkTree σd σf [] rootdir).filter
    (fun pe => candidateFilter min_file_size_mb forceencode skip_mime pe.2)

/-- Well-formedness of a scanned tree: within each directory the file
names and the subdirectory names are free of duplicates, as on a real
filesystem. -/
inductive NodupNames : FsTree → Prop where
  | node {n : String} {subdirs : List FsTree} {files : List ScanEntry} :
      (files.map ScanEntry.name).Nodup →
      (subdirs.map FsTree.name).Nodup →
      (∀ t ∈ subdirs, NodupNames t) →
      NodupNames (FsTree.node n subdirs files)

/-! ### Orchestrator loop (lines 568-672) -/

/-- Module-level flag main_loop_running with its initial value (line
138). -/
def main_loop_running : Bool := true

/-- The module-global state the orchestrator touches. -/
structure GlobalState where
  main_loop_running : Bool
deriving DecidableEq

/-- The job loop of run (lines 648-665).  flagAt i is the value the loop
reads from main_loop_running at the top of iteration i; the per-candidate
results of run_conversion_process are the oracle list.  Returns the
accumulated return code and the number of jobs started. -/
def runJobLoop (flagAt : Nat → Bool) (abortonerrror : Bool) :
    Nat → ℤ → List ConversionProcessResult → ℤ × Nat
  | _, acc, [] => (acc, 0)
  | i, acc, r :: rest =>
    if !(flagAt i) then (acc, 0)
    else
      let acc2 := acc + r.code
      if acc2 < 0 && abortonerrror then (acc2, 1)
      else
        let p := runJobLoop flagAt abortonerrror (i + 1) acc2 rest
        (p.1, p.2 + 1)

/-- Function run (lines 568-672) around its job phase: the early returns
for an empty candidate list, list-only mode and command-output mode yield
zero without running a job and leave the flag untouched; the job phase
runs the loop and, when signalling is on, clears main_loop_running at the
end (lines 667-669).  The candidates are carried as the oracle list of
their conversion results.  Returns the final global state, the aggregate
return code and the number of jobs started. -/
def run (gs : GlobalState) (flagAt : Nat → Bool)
    (results : List ConversionProcessResult)
    (just_list output_stream abortonerrror signalling : Bool) :
    GlobalState × ℤ × Nat :=
  if results.isEmpty then (gs, 0, 0)
  else if just_list then (gs, 0, 0)
  else if output_stream then (gs, 0, 0)
  else
    let p := runJobLoop flagAt abortonerrror 0 0 results
    ((if signalling then { main_loop_running := false } else gs), p.1, p.2)

/-- Constant all-true flag-read sequence: no stop request ever arrives. -/
def alwaysTrueFlag : Nat → Bool := fun _ => true

/-- Constant all-false flag-read sequence: the flag is already cleared. -/
def alwaysFalseFlag : Nat → Bool := fun _ => false

/-- Flag-read sequence that is true before read k and false from then on:
a stop request lands between job k and job k+1. -/
def stopAtFlag (k : Nat) : Nat → Bool := fun i => decide (i < k)

/-- Directory enumeration oracle that hands entries back in stored
order. -/
def identityEnum : List String → Nat → List Nat := fun _ k => List.range k

/-- Directory enumeration oracle that hands entries back reversed, as a
different filesystem might. -/
def reverseEnum : List String → Nat → List Nat := fun _ k => (List.range k).reverse

/-! ## Lemmas

First the generic string, ordering and state lemmas, then the claim
theorems. -/

theorem string_data_injective : Function.Injective String.data := by
  intro s t h
  exact congrArg String.mk h

theorem pyStemL_append_pySuffixL (l : List Char) : pyStemL l ++ pySuffixL l = l := by
  unfold pyStemL pySuffixL
  cases h : lastDotPos l with
  | none => simp
  | some i =>
    by_cases hc : 0 < i ∧ i < l.length - 1
    · simp [hc, List.take_append_drop]
    · simp [hc]

theorem pyStem_append_pySuffix (s : String) : pyStem s ++ pySuffix s = s := by
  apply string_data_injective
  simpa using pyStemL_append_pySuffixL s.data

theorem subX264_of_not_hasX264Match :
    ∀ l : List Char, hasX264Match l = false → subX264 l = l := by
  intro l
  induction l using subX264.induct with
  | case1 a b rest hab ih =>
    intro h
    rw [hasX264Match.eq_1] at h
    simp [hab] at h
  | case2 a b rest hab ih =>
    intro h
    rw [hasX264Match.eq_1] at h
    rw [Bool.or_eq_false_iff] at h
    rw [subX264.eq_1, if_neg hab, ih h.2]
  | case3 a rest hshape ih =>
    intro h
    rw [hasX264Match.eq_2 a rest hshape] at h
    rw [subX264.eq_2 a rest hshape, ih h]
  | case4 =>
    intro _
    rfl

theorem eliminate_x264_of_not_hasX264Match (s : String)
    (h : hasX264Match (pyStem s).data = false) : eliminate_x264 s = s := by
  unfold eliminate_x264 pyWithStem
  have h1 : (⟨subX264 (pyStem s).data⟩ : String) = pyStem s := by
    apply string_data_injective
    simpa using subX264_of_not_hasX264Match _ h
  rw [h1, pyStem_append_pySuffix]

/-! ### Order facts about lexicographic comparison -/

theorem char_eq_of_toNat_eq {a b : Char} (h : a.toNat = b.toNat) : a = b :=
  Char.eq_of_val_eq (UInt32.toNat.inj h)

theorem lexLe_refl : ∀ l : List Char, lexLe l l = true := by
  intro l
  induction l with
  | nil => rfl
  | cons a as ih => simp [lexLe, ih]

theorem lexLe_total : ∀ x y : List Char, lexLe x y = true ∨ lexLe y x = true := by
  intro x
  induction x with
  | nil => intro y; left; rfl
  | cons a as ih =>
    intro y
    cases y with
    | nil => right; rfl
    | cons b bs =>
      rcases Nat.lt_trichotomy a.toNat b.toNat with h | h | h
      · left; simp [lexLe, h]
      · have hne : ¬a.toNat < b.toNat := by omega
        have hne' : ¬b.toNat < a.toNat := by omega
        rcases ih bs with hs | hs
        · left; simp [lexLe, hne, hne', hs]
        · right; simp [lexLe, hne, hne', hs]
      · right; simp [lexLe, h]

theorem lexLe_trans :
    ∀ x y z : List Char, lexLe x y = true → lexLe y z = true → lexLe x z = true := by
  intro x
  induction x with
  | nil => intro y z _ _; rfl
  | cons a as ih =>
    intro y z h1 h2
    cases y with
    | nil => simp [lexLe] at h1
    | cons b bs =>
      cases z with
      | nil => simp [lexLe] at h2
      | cons c cs =>
        by_cases hab : a.toNat < b.toNat <;> by_cases hbc : b.toNat < c.toNat
        · simp [lexLe, show a.toNat < c.toNat by omega]
        · by_cases hcb : c.toNat < b.toNat
          · simp [lexLe, hbc, hcb] at h2
          · have hbceq : b.toNat = c.toNat := by omega
            simp [lexLe, show a.toNat < c.toNat by omega]
        · by_cases hba : b.toNat < a.toNat
          · simp [lexLe, hab, hba] at h1
          · have habeq : a.toNat = b.toNat := by omega
            simp [lexLe, show a.toNat < c.toNat by omega]
        · by_cases hba : b.toNat < a.toNat
          · simp [lexLe, hab, hba] at h1
          · by_cases hcb : c.toNat < b.toNat
            · simp [lexLe, hbc, hcb] at h2
            · have hac : ¬a.toNat < c.toNat := by omega
              have hca : ¬c.toNat < a.toNat := by omega
              rw [lexLe] at h1 h2 ⊢
              simp only [hab, hba, hbc, hcb, hac, hca, if_false] at h1 h2 ⊢
              exact ih bs cs h1 h2

theorem lexLe_antisymm :
    ∀ x y : List Char, lexLe x y = true → lexLe y x = true → x = y := by
  intro x
  induction x with
  | nil =>
    intro y h1 h2
    cases y with
    | nil => rfl
    | cons b bs => simp [lexLe] at h2
  | cons a as ih =>
    intro y h1 h2
    cases y with
    | nil => simp [lexLe] at h1
    | cons b bs =>
      by_cases hab : a.toNat < b.toNat
      · simp [lexLe, hab, show ¬b.toNat < a.toNat by omega] at h2
      · by_cases hba : b.toNat < a.toNat
        · simp [lexLe, hab, hba] at h1
        · have : a = b := char_eq_of_toNat_eq (by omega)
          subst this
          rw [lexLe] at h1 h2
          simp only [hab, if_false, lt_irrefl] at h1 h2
          rw [ih bs h1 h2]

instance : IsTotal ScanEntry entryLe := ⟨fun a b => lexLe_total a.name.data b.name.data⟩

instance : IsTrans ScanEntry entryLe :=
  ⟨fun a b c h1 h2 => lexLe_trans a.name.data b.name.data c.name.data h1 h2⟩

instance : IsTotal FsTree treeLe := ⟨fun a b => lexLe_total a.name.data b.name.data⟩

instance : IsTrans FsTree treeLe :=
  ⟨fun a b c h1 h2 => lexLe_trans a.name.data b.name.data c.name.data h1 h2⟩

/-! ### Association-list state lemmas -/

theorem fsLookup_fsErase_self (st : FsState) (p : String) : fsLookup (fsErase st p) p = none := by
  induction st with
  | nil => rfl
  | cons x rest ih =>
    obtain ⟨q, r⟩ := x
    by_cases h : q = p
    · simpa [fsErase, h] using ih
    · simpa [fsErase, fsLookup, h] using ih

theorem fsLookup_fsErase_ne (st : FsState) (p q : String) (h : p ≠ q) :
    fsLookup (fsErase st p) q = fsLookup st q := by
  induction st with
  | nil => rfl
  | cons x rest ih =>
    obtain ⟨n, r⟩ := x
    by_cases hn : n = p
    · subst hn
      simpa [fsErase, fsLookup, h] using ih
    · by_cases hq : n = q
      · subst hq
        simp [fsErase, fsLookup, hn]
      · simpa [fsErase, fsLookup, hn, hq] using ih

theorem fsLookup_fsSet_self (st : FsState) (p : String) (r : FileRec) :
    fsLookup (fsSet st p r) p = some r := by
  simp [fsSet, fsLookup]

theorem fsLookup_fsSet_ne (st : FsState) (p q : String) (r : FileRec) (h : p ≠ q) :
    fsLookup (fsSet st p r) q = fsLookup st q := by
  simp [fsSet, fsLookup, h]
  exact fsLookup_fsErase_ne st p q h

/-! ### Uniqueness of sorted permutations with duplicate-free keys -/

theorem sorted_perm_key_eq {α : Type} (key : α → List Char) :
    ∀ {l1 l2 : List α}, l1.Perm l2 →
      List.Sorted (fun a b => lexLe (key a) (key b) = true) l1 →
      List.Sorted (fun a b => lexLe (key a) (key b) = true) l2 →
      (l1.map key).Nodup → l1 = l2 := by
  intro l1
  induction l1 with
  | nil =>
    intro l2 hp _ _ _
    exact (hp.symm.eq_nil).symm
  | cons a t1 ih =>
    intro l2 hp hs1 hs2 hnd
    cases l2 with
    | nil => exact absurd hp.eq_nil (by simp)
    | cons b t2 =>
      have ha2 : a ∈ b :: t2 := hp.mem_iff.mp (List.mem_cons_self a t1)
      have hb1 : b ∈ a :: t1 := hp.symm.mem_iff.mp (List.mem_cons_self b t2)
      have hs1' := List.sorted_cons.mp hs1
      have hs2' := List.sorted_cons.mp hs2
      simp only [List.map_cons, List.nodup_cons] at hnd
      have hab : key a = key b := by
        have hle1 : lexLe (key a) (key b) = true := by
          rcases List.mem_cons.mp hb1 with h | h
          · rw [h]; exact lexLe_refl _
          · exact hs1'.1 b h
        have hle2 : lexLe (key b) (key a) = true := by
          rcases List.mem_cons.mp ha2 with h | h
          · rw [h]; exact lexLe_refl _
          · exact hs2'.1 a h
        exact lexLe_antisymm _ _ hle1 hle2
      have hab2 : a = b := by
        rcases List.mem_cons.mp hb1 with h | h
        · exact h.symm
        · exfalso
          have hmem : key b ∈ t1.map key := List.mem_map_of_mem key h
          rw [← hab] at hmem
          exact hnd.1 hmem
      subst hab2
      have hperm := hp.cons_inv
      rw [ih hperm hs1'.2 hs2'.2 hnd.2]

/-! ### Reordering lemmas -/

theorem reorder_range {α : Type} : ∀ l : List α, reorder (List.range l.length) l = l := by
  intro l
  induction l with
  | nil => rfl
  | cons a t ih =>
    have ih' : List.filterMap (fun i => t[i]?) (List.range t.length) = t := ih
    show List.filterMap (fun i => (a :: t)[i]?) (List.range (t.length + 1)) = a :: t
    rw [List.range_succ_eq_map, List.filterMap_cons, List.filterMap_map]
    have hfe : ((fun i => (a :: t)[i]?) ∘ Nat.succ) = (fun i => t[i]?) := by
      funext i
      simp
    simp only [List.getElem?_cons_zero, hfe, ih']

theorem reorder_perm {α : Type} (l : List α) (σ : List Nat)
    (h : σ.Perm (List.range l.length)) : (reorder σ l).Perm l := by
  have h1 : (reorder σ l).Perm (reorder (List.range l.length) l) :=
    List.Perm.filterMap _ h
  rwa [reorder_range] at h1

theorem mem_of_mem_reorder {α : Type} {a : α} {σ : List Nat} {l : List α}
    (h : a ∈ reorder σ l) : a ∈ l := by
  obtain ⟨i, _, hi⟩ := List.mem_filterMap.mp h
  exact List.getElem?_mem hi

/-! ### Sorted batch lemmas -/

theorem sortFiles_sorted (l : List ScanEntry) : List.Sorted entryLe (sortFiles l) :=
  List.sorted_insertionSort entryLe l

theorem sortFiles_perm (l : List ScanEntry) : (sortFiles l).Perm l :=
  List.perm_insertionSort entryLe l

theorem sortSubdirs_sorted (l : List FsTree) : List.Sorted treeLe (sortSubdirs l) :=
  List.sorted_insertionSort treeLe l

theorem sortSubdirs_perm (l : List FsTree) : (sortSubdirs l).Perm l :=
  List.perm_insertionSort treeLe l

theorem sortFiles_eq_of_perm {l1 l2 : List ScanEntry} (hp : l1.Perm l2)
    (hnd : (l1.map ScanEntry.name).Nodup) : sortFiles l1 = sortFiles l2 := by
  apply sorted_perm_key_eq (fun e => e.name.data)
  · exact (sortFiles_perm l1).trans (hp.trans (sortFiles_perm l2).symm)
  · exact sortFiles_sorted l1
  · exact sortFiles_sorted l2
  · have h2 : ((l1.map ScanEntry.name).map String.data).Nodup :=
      hnd.map string_data_injective
    have h1 : (l1.map (fun e => e.name.data)).Nodup := by
      simpa [List.map_map, Function.comp] using h2
    exact (((sortFiles_perm l1).map (fun e => e.name.data)).nodup_iff).mpr h1

theorem sortSubdirs_eq_of_perm {l1 l2 : List FsTree} (hp : l1.Perm l2)
    (hnd : (l1.map FsTree.name).Nodup) : sortSubdirs l1 = sortSubdirs l2 := by
  apply sorted_perm_key_eq (fun t => t.name.data)
  · exact (sortSubdirs_perm l1).trans (hp.trans (sortSubdirs_perm l2).symm)
  · exact sortSubdirs_sorted l1
  · exact sortSubdirs_sorted l2
  · have h2 : ((l1.map FsTree.name).map String.data).Nodup :=
      hnd.map string_data_injective
    have h1 : (l1.map (fun t => t.name.data)).Nodup := by
      simpa [List.map_map, Function.comp] using h2
    exact (((sortSubdirs_perm l1).map (fun t => t.name.data)).nodup_iff).mpr h1

/-! ### Tree induction and enumeration-order irrelevance of the walk -/

theorem FsTree.strongInduction (P : FsTree → Prop)
    (h : ∀ n subdirs files, (∀ t ∈ subdirs, P t) → P (FsTree.node n subdirs files)) :
    ∀ t, P t
  | FsTree.node n ds fs =>
    h n ds fs (fun t ht => FsTree.strongInduction P h t)
termination_by t => sizeOf t
decreasing_by
  simp_wf
  have h3 := List.sizeOf_lt_of_mem ht
  omega

theorem walkTree_oracle_irrel (σd σf σd' σf' : List String → Nat → List Nat)
    (hd : ∀ p k, (σd p k).Perm (List.range k)) (hf : ∀ p k, (σf p k).Perm (List.range k))
    (hd' : ∀ p k, (σd' p k).Perm (List.range k)) (hf' : ∀ p k, (σf' p k).Perm (List.range k)) :
    ∀ t : FsTree, NodupNames t → ∀ path,
      walkTree σd σf path t = walkTree σd' σf' path t := by
  apply FsTree.strongInduction
    (P := fun t => NodupNames t → ∀ path, walkTree σd σf path t = walkTree σd' σf' path t)
  intro n ds fs ihsub hnn path
  cases hnn with
  | node hnf hnd hsubnn =>
    rw [walkTree, walkTree]
    have hfe : sortFiles (reorder (σf (path ++ [n]) fs.length) fs)
        = sortFiles (reorder (σf' (path ++ [n]) fs.length) fs) := by
      apply sortFiles_eq_of_perm
      · exact (reorder_perm fs _ (hf _ _)).trans (reorder_perm fs _ (hf' _ _)).symm
      · exact (((reorder_perm fs _ (hf _ _)).map ScanEntry.name).nodup_iff).mpr hnf
    have hde : sortSubdirs (reorder (σd (path ++ [n]) ds.length) ds)
        = sortSubdirs (reorder (σd' (path ++ [n]) ds.length) ds) := by
      apply sortSubdirs_eq_of_perm
      · exact (reorder_perm ds _ (hd _ _)).trans (reorder_perm ds _ (hd' _ _)).symm
      · exact (((reorder_perm ds _ (hd _ _)).map FsTree.name).nodup_iff).mpr hnd
    rw [hfe, hde]
    congr 1
    apply congrArg List.flatten
    apply List.map_congr_left
    intro x _
    have hx1 : x.1 ∈ ds :=
      mem_of_mem_reorder ((sortSubdirs_perm _).mem_iff.mp x.2)
    exact ihsub x.1 hx1 (hsubnn x.1 hx1) (path ++ [n])

/-! ### Orchestrator loop lemmas -/

theorem runJobLoop_flag_true (flagAt : Nat → Bool) (hflag : ∀ i, flagAt i = true) :
    ∀ (rs : List ConversionProcessResult) (i : Nat) (acc : ℤ),
      runJobLoop flagAt false i acc rs =
        (acc + (rs.map ConversionProcessResult.code).sum, rs.length) := by
  intro rs
  induction rs with
  | nil =>
    intro i acc
    simp [runJobLoop]
  | cons r rest ih =>
    intro i acc
    have h1 : (!(flagAt i)) = false := by rw [hflag]; rfl
    rw [runJobLoop, h1]
    simp only [Bool.false_eq_true, if_false, Bool.and_false, ih (i + 1) (acc + r.code)]
    rw [List.map_cons, List.sum_cons]
    refine Prod.ext ?_ rfl
    simp only []
    omega

theorem runJobLoop_stop (flagAt : Nat → Bool) :
    ∀ (k : Nat) (rs : List ConversionProcessResult) (i0 : Nat) (acc : ℤ),
      (∀ j, j < k → flagAt (i0 + j) = true) → flagAt (i0 + k) = false → k ≤ rs.length →
      runJobLoop flagAt false i0 acc rs =
        (acc + ((rs.take k).map ConversionProcessResult.code).sum, k) := by
  intro k
  induction k with
  | zero =>
    intro rs i0 acc _ hstop _
    have h0 : flagAt i0 = false := by simpa using hstop
    cases rs with
    | nil => simp [runJobLoop]
    | cons r rest =>
      rw [runJobLoop, h0]
      simp
  | succ k ih =>
    intro rs i0 acc hbefore hstop hlen
    cases rs with
    | nil => simp at hlen
    | cons r rest =>
      have hft : flagAt i0 = true := by
        have h := hbefore 0 (Nat.succ_pos k)
        simpa using h
      have h1 : (!(flagAt i0)) = false := by rw [hft]; rfl
      have hb : ∀ j, j < k → flagAt (i0 + 1 + j) = true := by
        intro j hj
        have h := hbefore (j + 1) (by omega)
        rwa [show i0 + (j + 1) = i0 + 1 + j by omega] at h
      have hs : flagAt (i0 + 1 + k) = false := by
        rwa [show i0 + 1 + k = i0 + (k + 1) by omega]
      have hl : k ≤ rest.length := by simpa using hlen
      rw [runJobLoop, h1]
      simp only [Bool.false_eq_true, if_false, Bool.and_false,
        ih rest (i0 + 1) (acc + r.code) hb hs hl]
      rw [List.take_succ_cons, List.map_cons, List.sum_cons]
      refine Prod.ext ?_ rfl
      simp only []
      omega

theorem code_sum_all_ok :
    ∀ rs : List ConversionProcessResult,
      (∀ r ∈ rs, r = ConversionProcessResult.OK) →
      (rs.map ConversionProcessResult.code).sum = 0 := by
  intro rs
  induction rs with
  | nil => intro _; rfl
  | cons r rest ih =>
    intro h
    have hr : r = ConversionProcessResult.OK := h r (List.mem_cons_self r rest)
    have hrest := ih (fun x hx => h x (List.mem_cons_of_mem r hx))
    simp [hr, hrest, ConversionProcessResult.code]

/-! ### Conversion-step state lemmas -/

theorem failCleanup_keep (st : FsState) (newP : String) (orcl : EffectOracles) :
    failCleanup st newP true orcl = st := by
  unfold failCleanup
  simp

theorem failCleanup_lookup_ne (st : FsState) (newP q : String) (keep : Bool)
    (orcl : EffectOracles) (h : newP ≠ q) :
    fsLookup (failCleanup st newP keep orcl) q = fsLookup st q := by
  unfold failCleanup
  split
  · split
    · rfl
    · exact fsLookup_fsErase_ne st newP q h
  · rfl

theorem failCleanup_deleted (st : FsState) (newP : String) (orcl : EffectOracles)
    (h : orcl.removeFails = false) :
    fsLookup (failCleanup st newP false orcl) newP = none := by
  unfold failCleanup
  rw [h]
  cases hl : fsLookup st newP with
  | none => simp [hl]
  | some v => simp [hl, fsLookup_fsErase_self]

theorem reportState_lookup (st0 : FsState) (orig q : String) (create_report : Bool)
    (orcl : EffectOracles) (h : pyWithSuffix (get_filepath_new orig) ".log" ≠ q) :
    fsLookup (reportState st0 orig create_report orcl) q = fsLookup st0 q := by
  unfold reportState
  by_cases hc : create_report
  · by_cases hr : orcl.reportFails
    · simp [hc, hr]
    · simp [hc, hr, fsLookup_fsSet_ne st0 _ q orcl.reportRec h]
  · simp [hc]

theorem file_size_mb_reportState (st0 : FsState) (orig q : String) (create_report : Bool)
    (orcl : EffectOracles) (h : pyWithSuffix (get_filepath_new orig) ".log" ≠ q) :
    file_size_mb (reportState st0 orig create_report orcl) q = file_size_mb st0 q := by
  unfold file_size_mb
  rw [reportState_lookup st0 orig q create_report orcl h]

theorem nogain_marked_ne (orig : String)
    (hmark : check_has_mark orig FILENAME_MARKER_NOGAIN = false) :
    build_filename_with_marker orig FILENAME_MARKER_NOGAIN none ≠ orig := by
  unfold build_filename_with_marker
  rw [hmark]
  simp only [Bool.false_eq_true, if_false]
  intro heq
  have h1 := congrArg String.length heq
  have horig := congrArg String.length (pyStem_append_pySuffix orig)
  rw [String.length_append] at horig
  unfold pyWithStem at h1
  rw [String.length_append, String.length_append] at h1
  have hm : FILENAME_MARKER_NOGAIN.length = 11 := rfl
  omega

/-! ## Claim theorems -/

/-- Claim C1 as amended: for a zero exit status the job is classified
NoGain exactly when the produced size strictly exceeds ninety-five
percent of the original size; the boundary case of exact equality (with
a positive original) falls into the real-gain branch instead. -/
theorem claim_C1_amended (file_mb newfile_mb : ℚ) :
    (zeroExitBucket file_mb newfile_mb = ZeroExitBucket.noGain ↔
      file_mb * (95/100) < newfile_mb) ∧
    (0 < file_mb → newfile_mb = file_mb * (95/100) →
      zeroExitBucket file_mb newfile_mb = ZeroExitBucket.realGain) := by
  constructor
  · constructor
    · intro h
      by_contra hn
      rw [zeroExitBucket, if_neg hn] at h
      by_cases h2 : newfile_mb > file_mb * (5/100)
      · rw [if_pos h2] at h
        simp at h
      · rw [if_neg h2] at h
        simp at h
    · intro h
      rw [zeroExitBucket, if_pos h]
  · intro hpos heq
    have h1 : ¬(file_mb * (95/100) < newfile_mb) := by
      rw [heq]
      exact lt_irrefl _
    have h2 : newfile_mb > file_mb * (5/100) := by
      rw [heq]
      nlinarith
    rw [zeroExitBucket, if_neg h1, if_pos h2]

/-- Witness for the amended claim C1 at the boundary pair of one hundred
and ninety-five megabytes. -/
theorem claim_C1_amended_witness :
    ((0:ℚ) < 100) ∧ ((95:ℚ) = 100 * (95/100)) ∧
    zeroExitBucket 100 95 = ZeroExitBucket.realGain :=
  ⟨by norm_num, by norm_num, (claim_C1_amended 100 95).2 (by norm_num) (by norm_num)⟩

/-- Claim C1, counterexample: at produced size exactly ninety-five
percent of the original (100 MB original, 95 MB produced, zero exit),
run_conversion_process takes the Done path and returns OK, not the
NoGain code NOT_SMALLER the claim demands at the boundary. -/
theorem claim_C1_counterexample :
    (run_conversion_process
        [("a.mkv", ⟨104857600, [], 11, 12, 1⟩), ("a_x265.mkv", ⟨99614720, [], 21, 22, 2⟩)]
        "a.mkv" (some 0) false false "d" "ds" "t"
        ⟨false, ⟨0, [], 0, 0, 0⟩, false, true, 31, 32⟩).map Prod.snd =
      some ConversionProcessResult.OK ∧
    get_file_size_mb (some 99614720) = get_file_size_mb (some 104857600) * (95/100) ∧
    ConversionProcessResult.OK ≠ ConversionProcessResult.NOT_SMALLER := by
  refine ⟨?_, ?_, by decide⟩
  · have hnp : get_filepath_new "a.mkv" = "a_x265.mkv" := by decide
    have hl1 : fsLookup [("a.mkv", ⟨104857600, [], 11, 12, 1⟩),
        ("a_x265.mkv", ⟨99614720, [], 21, 22, 2⟩)] "a.mkv" =
        some ⟨104857600, [], 11, 12, 1⟩ := by decide
    have hl2 : fsLookup [("a.mkv", ⟨104857600, [], 11, 12, 1⟩),
        ("a_x265.mkv", ⟨99614720, [], 21, 22, 2⟩)] "a_x265.mkv" =
        some ⟨99614720, [], 21, 22, 2⟩ := by decide
    have h1 : file_size_mb [("a.mkv", ⟨104857600, [], 11, 12, 1⟩),
        ("a_x265.mkv", ⟨99614720, [], 21, 22, 2⟩)] "a.mkv" = 100 := by
      unfold file_size_mb
      rw [hl1]
      norm_num [get_file_size_mb, pyRound2, roundHalfEven]
    have h2 : file_size_mb [("a.mkv", ⟨104857600, [], 11, 12, 1⟩),
        ("a_x265.mkv", ⟨99614720, [], 21, 22, 2⟩)] "a_x265.mkv" = 95 := by
      unfold file_size_mb
      rw [hl2]
      norm_num [get_file_size_mb, pyRound2, roundHalfEven]
    have hb : zeroExitBucket 100 95 = ZeroExitBucket.realGain := by
      unfold zeroExitBucket
      norm_num
    simp only [run_conversion_process, hnp, reportState, Bool.false_eq_true, if_false]
    rw [if_neg (by simp : ¬(0 : ℤ) ≠ 0)]
    rw [h1, h2, hb]
    simp +decide [fsRename, fsLookup, fsSet, fsErase, mkv_add_metadata_xml,
      get_done_filename, check_is_donefile]
  · norm_num [get_file_size_mb, pyRound2, roundHalfEven]

/-- Claim C5: on every failed-encoder path (launch failure or non-zero
exit status), run_conversion_process returns the negative NON_ZERO code,
leaves the original untouched with no rename and no metadata write,
deletes the produced artifact unless keep was requested, and swallows a
deletion error without changing the outcome. -/
theorem claim_C5 (st0 : FsState) (orig : String) (proc : Option ℤ)
    (keep create_report : Bool) (dS dSS nS : String) (orcl : EffectOracles)
    (hfail : proc = none ∨ ∃ rc, proc = some rc ∧ rc ≠ 0)
    (hro : pyWithSuffix (get_filepath_new orig) ".log" ≠ orig)
    (hrn : pyWithSuffix (get_filepath_new orig) ".log" ≠ get_filepath_new orig)
    (hno : get_filepath_new orig ≠ orig) :
    ∃ stF,
      run_conversion_process st0 orig proc keep create_report dS dSS nS orcl =
        some (stF, ConversionProcessResult.NON_ZERO) ∧
      ConversionProcessResult.NON_ZERO.code < 0 ∧
      fsLookup stF orig = fsLookup st0 orig ∧
      (keep = false → orcl.removeFails = false →
        fsLookup stF (get_filepath_new orig) = none) ∧
      (keep = true →
        fsLookup stF (get_filepath_new orig) = fsLookup st0 (get_filepath_new orig)) := by
  refine ⟨failCleanup (reportState st0 orig create_report orcl)
      (get_filepath_new orig) keep orcl, ?_, ?_, ?_, ?_, ?_⟩
  · rcases hfail with hnone | ⟨rc, hrc, hne0⟩
    · subst hnone
      simp only [run_conversion_process]
    · subst hrc
      simp only [run_conversion_process]
      rw [if_pos hne0]
  · decide
  · rw [failCleanup_lookup_ne _ _ _ _ _ hno]
    exact reportState_lookup st0 orig orig create_report orcl hro
  · intro hk hrf
    subst hk
    exact failCleanup_deleted _ _ _ hrf
  · intro hk
    subst hk
    rw [failCleanup_keep]
    exact reportState_lookup st0 orig _ create_report orcl hrn

/-- Witness for claim C5 at a concrete job whose encoder exits 17 with
the artifact present. -/
theorem claim_C5_witness :
    ∃ stF,
      run_conversion_process
          [("a.mkv", ⟨104857600, [], 11, 12, 1⟩), ("a_x265.mkv", ⟨5242880, [], 21, 22, 2⟩)]
          "a.mkv" (some 17) false false "d" "ds" "t"
          ⟨false, ⟨0, [], 0, 0, 0⟩, false, true, 31, 32⟩ =
        some (stF, ConversionProcessResult.NON_ZERO) ∧
      ConversionProcessResult.NON_ZERO.code < 0 ∧
      fsLookup stF "a.mkv" =
        fsLookup [("a.mkv", ⟨104857600, [], 11, 12, 1⟩),
                  ("a_x265.mkv", ⟨5242880, [], 21, 22, 2⟩)] "a.mkv" ∧
      (false = false → EffectOracles.removeFails
          ⟨false, ⟨0, [], 0, 0, 0⟩, false, true, 31, 32⟩ = false →
        fsLookup stF (get_filepath_new "a.mkv") = none) ∧
      (false = true →
        fsLookup stF (get_filepath_new "a.mkv") =
          fsLookup [("a.mkv", ⟨104857600, [], 11, 12, 1⟩),
                    ("a_x265.mkv", ⟨5242880, [], 21, 22, 2⟩)] (get_filepath_new "a.mkv")) :=
  claim_C5
    [("a.mkv", ⟨104857600, [], 11, 12, 1⟩), ("a_x265.mkv", ⟨5242880, [], 21, 22, 2⟩)]
    "a.mkv" (some 17) false false "d" "ds" "t"
    ⟨false, ⟨0, [], 0, 0, 0⟩, false, true, 31, 32⟩
    (Or.inr ⟨17, rfl, by decide⟩) (by decide) (by decide) (by decide)

/-- Claim C9: a zero-exit job whose produced size probe reports at most
five percent of the original (including the failed-probe value minus
one) falls through both size branches: no rename, no tagging, no
deletion, and the returned code is OK, that is zero. -/
theorem claim_C9 (st0 : FsState) (orig : String) (keep create_report : Bool)
    (dS dSS nS : String) (orcl : EffectOracles)
    (hro : pyWithSuffix (get_filepath_new orig) ".log" ≠ orig)
    (hrn : pyWithSuffix (get_filepath_new orig) ".log" ≠ get_filepath_new orig)
    (hpos : 0 ≤ file_size_mb st0 orig)
    (hsmall : file_size_mb st0 (get_filepath_new orig) ≤ file_size_mb st0 orig * (5/100)) :
    run_conversion_process st0 orig (some 0) keep create_report dS dSS nS orcl =
      some (reportState st0 orig create_report orcl, ConversionProcessResult.OK) ∧
    ConversionProcessResult.OK.code = 0 ∧
    fsLookup (reportState st0 orig create_report orcl) orig = fsLookup st0 orig ∧
    fsLookup (reportState st0 orig create_report orcl) (get_filepath_new orig) =
      fsLookup st0 (get_filepath_new orig) := by
  have hlo := reportState_lookup st0 orig orig create_report orcl hro
  have hln := reportState_lookup st0 orig _ create_report orcl hrn
  have hfo := file_size_mb_reportState st0 orig orig create_report orcl hro
  have hfn := file_size_mb_reportState st0 orig _ create_report orcl hrn
  have hbucket : zeroExitBucket (file_size_mb st0 orig)
      (file_size_mb st0 (get_filepath_new orig)) = ZeroExitBucket.tinyOutput := by
    unfold zeroExitBucket
    rw [if_neg (by nlinarith), if_neg (not_lt.mpr hsmall)]
  refine ⟨?_, rfl, hlo, hln⟩
  simp only [run_conversion_process]
  rw [if_neg (by simp : ¬(0 : ℤ) ≠ 0)]
  rw [hfo, hfn, hbucket]

/-- Witness for claim C9: original of 100 MB present, produced artifact
absent so its size probe reports minus one; the job returns OK and the
state is unchanged. -/
theorem claim_C9_witness :
    run_conversion_process [("a.mkv", ⟨104857600, [], 11, 12, 1⟩)]
        "a.mkv" (some 0) false false "d" "ds" "t"
        ⟨false, ⟨0, [], 0, 0, 0⟩, false, true, 31, 32⟩ =
      some (reportState [("a.mkv", ⟨104857600, [], 11, 12, 1⟩)] "a.mkv" false
              ⟨false, ⟨0, [], 0, 0, 0⟩, false, true, 31, 32⟩,
            ConversionProcessResult.OK) ∧
    ConversionProcessResult.OK.code = 0 ∧
    fsLookup (reportState [("a.mkv", ⟨104857600, [], 11, 12, 1⟩)] "a.mkv" false
        ⟨false, ⟨0, [], 0, 0, 0⟩, false, true, 31, 32⟩) "a.mkv" =
      fsLookup [("a.mkv", ⟨104857600, [], 11, 12, 1⟩)] "a.mkv" ∧
    fsLookup (reportState [("a.mkv", ⟨104857600, [], 11, 12, 1⟩)] "a.mkv" false
        ⟨false, ⟨0, [], 0, 0, 0⟩, false, true, 31, 32⟩) (get_filepath_new "a.mkv") =
      fsLookup [("a.mkv", ⟨104857600, [], 11, 12, 1⟩)] (get_filepath_new "a.mkv") :=
  claim_C9 [("a.mkv", ⟨104857600, [], 11, 12, 1⟩)] "a.mkv" false false "d" "ds" "t"
    ⟨false, ⟨0, [], 0, 0, 0⟩, false, true, 31, 32⟩
    (by decide) (by decide)
    (by
      have h : fsLookup [("a.mkv", ⟨104857600, [], 11, 12, 1⟩)] "a.mkv" =
          some ⟨104857600, [], 11, 12, 1⟩ := by decide
      unfold file_size_mb
      rw [h]
      norm_num [get_file_size_mb, pyRound2, roundHalfEven])
    (by
      have h1 : fsLookup [("a.mkv", ⟨104857600, [], 11, 12, 1⟩)] "a.mkv" =
          some ⟨104857600, [], 11, 12, 1⟩ := by decide
      have h2 : fsLookup [("a.mkv", ⟨104857600, [], 11, 12, 1⟩)]
          (get_filepath_new "a.mkv") = none := by decide
      unfold file_size_mb
      rw [h1, h2]
      norm_num [get_file_size_mb, pyRound2, roundHalfEven])

/-- Claim C4: a zero-exit job over the no-gain threshold embeds the
do-not-retry tag plus the size, duration and timestamp facts into the
original's metadata with the original's access and modification times
(and every other attribute of its record) preserved, then renames the
original to its no-gain-marked name, and deletes the produced artifact
exactly when keep was not requested. -/
theorem claim_C4 (st0 : FsState) (orig : String) (keep create_report : Bool)
    (dS dSS nS : String) (orcl : EffectOracles) (fo fn : FileRec)
    (hfo : fsLookup st0 orig = some fo)
    (hfn : fsLookup st0 (get_filepath_new orig) = some fn)
    (hnogain : file_size_mb st0 orig * (95/100) < file_size_mb st0 (get_filepath_new orig))
    (hro : pyWithSuffix (get_filepath_new orig) ".log" ≠ orig)
    (hrn : pyWithSuffix (get_filepath_new orig) ".log" ≠ get_filepath_new orig)
    (hno : get_filepath_new orig ≠ orig)
    (hmn : build_filename_with_marker orig FILENAME_MARKER_NOGAIN none ≠ get_filepath_new orig)
    (hmark : check_has_mark orig FILENAME_MARKER_NOGAIN = false)
    (htool : orcl.tagToolOk = true) :
    ∃ stF,
      run_conversion_process st0 orig (some 0) keep create_report dS dSS nS orcl =
        some (stF, ConversionProcessResult.NOT_SMALLER) ∧
      build_filename_with_marker orig FILENAME_MARKER_NOGAIN none ≠ orig ∧
      fsLookup stF (build_filename_with_marker orig FILENAME_MARKER_NOGAIN none) =
        some { fo with tags :=
          (meta_custom_tags orig (file_size_mb st0 orig)
              (file_size_mb st0 (get_filepath_new orig)) dS dSS nS
            ++ [(MKV_METADATA_X265NOGAIN, "True")]) } ∧
      fsLookup stF orig = none ∧
      fsLookup stF (get_filepath_new orig) = (if keep then some fn else none) := by
  have hmo : build_filename_with_marker orig FILENAME_MARKER_NOGAIN none ≠ orig :=
    nogain_marked_ne orig hmark
  have hfoR : fsLookup (reportState st0 orig create_report orcl) orig = some fo := by
    rw [reportState_lookup st0 orig orig create_report orcl hro, hfo]
  have hfnR : fsLookup (reportState st0 orig create_report orcl) (get_filepath_new orig)
      = some fn := by
    rw [reportState_lookup st0 orig _ create_report orcl hrn, hfn]
  have hbucket : zeroExitBucket (file_size_mb st0 orig)
      (file_size_mb st0 (get_filepath_new orig)) = ZeroExitBucket.noGain := by
    unfold zeroExitBucket
    rw [if_pos hnogain]
  have hfinal :
      add_metadata_nogain (reportState st0 orig create_report orcl) orig
        (meta_custom_tags orig (file_size_mb st0 orig)
          (file_size_mb st0 (get_filepath_new orig)) dS dSS nS) orcl =
      some (fsSet
        (fsErase
          (fsSet (reportState st0 orig create_report orcl) orig
            { fo with tags :=
              (meta_custom_tags orig (file_size_mb st0 orig)
                  (file_size_mb st0 (get_filepath_new orig)) dS dSS nS
                ++ [(MKV_METADATA_X265NOGAIN, "True")]) })
          orig)
        (build_filename_with_marker orig FILENAME_MARKER_NOGAIN none)
        { fo with tags :=
          (meta_custom_tags orig (file_size_mb st0 orig)
              (file_size_mb st0 (get_filepath_new orig)) dS dSS nS
            ++ [(MKV_METADATA_X265NOGAIN, "True")]) }) := by
    unfold add_metadata_nogain mkv_add_metadata_xml
    rw [hfoR, htool]
    simp only [if_true]
    unfold fsRename
    rw [fsLookup_fsSet_self]
  have hlk2 : fsLookup (fsSet
        (fsErase
          (fsSet (reportState st0 orig create_report orcl) orig
            { fo with tags :=
              (meta_custom_tags orig (file_size_mb st0 orig)
                  (file_size_mb st0 (get_filepath_new orig)) dS dSS nS
                ++ [(MKV_METADATA_X265NOGAIN, "True")]) })
          orig)
        (build_filename_with_marker orig FILENAME_MARKER_NOGAIN none)
        { fo with tags :=
          (meta_custom_tags orig (file_size_mb st0 orig)
              (file_size_mb st0 (get_filepath_new orig)) dS dSS nS
            ++ [(MKV_METADATA_X265NOGAIN, "True")]) })
      (get_filepath_new orig) = some fn := by
    rw [fsLookup_fsSet_ne _ _ _ _ hmn,
      fsLookup_fsErase_ne _ _ _ (Ne.symm hno),
      fsLookup_fsSet_ne _ _ _ _ (Ne.symm hno), hfnR]
  cases keep with
  | true =>
    refine ⟨?_, ?_, hmo, ?_, ?_, ?_⟩
    rotate_left
    · simp only [run_conversion_process]
      rw [if_neg (by simp : ¬(0 : ℤ) ≠ 0)]
      rw [file_size_mb_reportState st0 orig orig create_report orcl hro,
        file_size_mb_reportState st0 orig _ create_report orcl hrn]
      rw [hbucket, hfinal]
      exact rfl
    · rw [fsLookup_fsSet_self]
    · rw [fsLookup_fsSet_ne _ _ _ _ hmo, fsLookup_fsErase_self]
    · rw [hlk2]
      rfl
  | false =>
    refine ⟨?_, ?_, hmo, ?_, ?_, ?_⟩
    rotate_left
    · simp only [run_conversion_process]
      rw [if_neg (by simp : ¬(0 : ℤ) ≠ 0)]
      rw [file_size_mb_reportState st0 orig orig create_report orcl hro,
        file_size_mb_reportState st0 orig _ create_report orcl hrn]
      simp only [hbucket, hfinal, hlk2, Bool.false_eq_true, if_false]
      exact rfl
    · rw [fsLookup_fsErase_ne _ _ _ (Ne.symm hmn), fsLookup_fsSet_self]
    · rw [fsLookup_fsErase_ne _ _ _ hno,
        fsLookup_fsSet_ne _ _ _ _ hmo, fsLookup_fsErase_self]
    · rw [fsLookup_fsErase_self]
      rfl

/-- Witness for claim C4 at a concrete no-gain job (original 500 MB,
artifact 490 MB, keep not requested). -/
theorem claim_C4_witness :
    ∃ stF,
      run_conversion_process
          [("a.mkv", ⟨524288000, [], 11, 12, 1⟩), ("a_x265.mkv", ⟨513802240, [], 21, 22, 2⟩)]
          "a.mkv" (some 0) false false "d" "ds" "t"
          ⟨false, ⟨0, [], 0, 0, 0⟩, false, true, 31, 32⟩ =
        some (stF, ConversionProcessResult.NOT_SMALLER) ∧
      build_filename_with_marker "a.mkv" FILENAME_MARKER_NOGAIN none ≠ "a.mkv" ∧
      fsLookup stF (build_filename_with_marker "a.mkv" FILENAME_MARKER_NOGAIN none) =
        some { (⟨524288000, [], 11, 12, 1⟩ : FileRec) with tags :=
          (meta_custom_tags "a.mkv"
              (file_size_mb [("a.mkv", ⟨524288000, [], 11, 12, 1⟩),
                             ("a_x265.mkv", ⟨513802240, [], 21, 22, 2⟩)] "a.mkv")
              (file_size_mb [("a.mkv", ⟨524288000, [], 11, 12, 1⟩),
                             ("a_x265.mkv", ⟨513802240, [], 21, 22, 2⟩)]
                (get_filepath_new "a.mkv")) "d" "ds" "t"
            ++ [(MKV_METADATA_X265NOGAIN, "True")]) } ∧
      fsLookup stF "a.mkv" = none ∧
      fsLookup stF (get_filepath_new "a.mkv") = (if (false : Bool) then some ⟨513802240, [], 21, 22, 2⟩ else none) :=
  claim_C4
    [("a.mkv", ⟨524288000, [], 11, 12, 1⟩), ("a_x265.mkv", ⟨513802240, [], 21, 22, 2⟩)]
    "a.mkv" false false "d" "ds" "t"
    ⟨false, ⟨0, [], 0, 0, 0⟩, false, true, 31, 32⟩
    ⟨524288000, [], 11, 12, 1⟩ ⟨513802240, [], 21, 22, 2⟩
    (by decide) (by decide)
    (by
      have h1 : fsLookup [("a.mkv", ⟨524288000, [], 11, 12, 1⟩),
          ("a_x265.mkv", ⟨513802240, [], 21, 22, 2⟩)] "a.mkv" =
          some ⟨524288000, [], 11, 12, 1⟩ := by decide
      have h2 : fsLookup [("a.mkv", ⟨524288000, [], 11, 12, 1⟩),
          ("a_x265.mkv", ⟨513802240, [], 21, 22, 2⟩)] (get_filepath_new "a.mkv") =
          some ⟨513802240, [], 21, 22, 2⟩ := by decide
      unfold file_size_mb
      rw [h1, h2]
      norm_num [get_file_size_mb, pyRound2, roundHalfEven])
    (by decide) (by decide) (by decide) (by decide) (by decide) rfl

/-- Claim C3, counterexample: the legacy-codec cleanup is not idempotent
on every path; removing the marker can splice a fresh marker occurrence
together, which the second application then also removes. -/
theorem claim_C3_counterexample :
    eliminate_x264 (eliminate_x264 "a-x-x264264.mkv") ≠ eliminate_x264 "a-x-x264264.mkv" := by
  decide

/-- Claim C3 as amended: for every path whose name after one cleanup
contains no residual legacy-codec pattern in its stem, the second
application of eliminate_x264 changes nothing. -/
theorem claim_C3_amended (p : String)
    (h : hasX264Match (pyStem (eliminate_x264 p)).data = false) :
    eliminate_x264 (eliminate_x264 p) = eliminate_x264 p :=
  eliminate_x264_of_not_hasX264Match _ h

/-- Witness for claim C3 at a concrete marker-carrying name. -/
theorem claim_C3_witness :
    hasX264Match (pyStem (eliminate_x264 "foo_x264.mkv")).data = false ∧
    eliminate_x264 (eliminate_x264 "foo_x264.mkv") = eliminate_x264 "foo_x264.mkv" :=
  ⟨by decide, claim_C3_amended "foo_x264.mkv" (by decide)⟩

/-- Claim C6: no path returned by find_candidates carries the converted
marker token in its filename or the done suffix among its suffixes, for
every root tree, every threshold and every flag combination. -/
theorem claim_C6 (σd σf : List String → Nat → List Nat) (rootdir : FsTree)
    (min_file_size_mb : ℚ) (forceencode skip_mime : Bool)
    (pe : List String × ScanEntry)
    (hmem : pe ∈ find_candidates σd σf rootdir min_file_size_mb forceencode skip_mime) :
    check_has_mark pe.2.name FILENAME_MARKER_X265 = false ∧
    FILENAME_POSTFIX_DONE ∉ pySuffixes pe.2.name := by
  have h := (List.mem_filter.mp hmem).2
  constructor
  · by_contra hm
    rw [Bool.not_eq_false] at hm
    simp [candidateFilter, hm] at h
  · intro hm
    have hcd : check_is_donefile pe.2.name = true := by
      unfold check_is_donefile
      exact decide_eq_true hm
    simp [candidateFilter, hcd] at h

/-- Witness for claim C6 on a one-directory tree with one qualifying
video file. -/
theorem claim_C6_witness :
    ((["root"], (⟨"b.mkv", some 209715200, some true, true, false, false⟩ : ScanEntry)) ∈
      find_candidates identityEnum identityEnum
        (FsTree.node "root" [] [⟨"b.mkv", some 209715200, some true, true, false, false⟩])
        100 false false) ∧
    check_has_mark "b.mkv" FILENAME_MARKER_X265 = false ∧
    FILENAME_POSTFIX_DONE ∉ pySuffixes "b.mkv" := by
  have hw : walkTree identityEnum identityEnum []
      (FsTree.node "root" [] [⟨"b.mkv", some 209715200, some true, true, false, false⟩]) =
      [(["root"], ⟨"b.mkv", some 209715200, some true, true, false, false⟩)] := by
    rw [walkTree]
    decide
  have hs : get_file_size_mb (some 209715200) = 200 := by
    norm_num [get_file_size_mb, pyRound2, roundHalfEven]
  have hcf : candidateFilter 100 false false
      ⟨"b.mkv", some 209715200, some true, true, false, false⟩ = true := by
    simp +decide [candidateFilter, hs]
  have hmem : (["root"], (⟨"b.mkv", some 209715200, some true, true, false, false⟩ : ScanEntry)) ∈
      find_candidates identityEnum identityEnum
        (FsTree.node "root" [] [⟨"b.mkv", some 209715200, some true, true, false, false⟩])
        100 false false := by
    unfold find_candidates
    rw [hw]
    simp [List.filter, hcf]
  exact ⟨hmem, claim_C6 identityEnum identityEnum _ 100 false false _ hmem⟩

/-- Claim C7: the scan is a pure function of the tree: for any two
enumeration orders the OS may produce at every directory (any two
consecutive calls included), find_candidates returns the same ordered
list, because every sibling batch is sorted by name before use; the
model reads the tree and never writes it. -/
theorem claim_C7 (σd σf σd' σf' : List String → Nat → List Nat) (rootdir : FsTree)
    (min_file_size_mb : ℚ) (forceencode skip_mime : Bool)
    (hd : ∀ p k, (σd p k).Perm (List.range k))
    (hf : ∀ p k, (σf p k).Perm (List.range k))
    (hd' : ∀ p k, (σd' p k).Perm (List.range k))
    (hf' : ∀ p k, (σf' p k).Perm (List.range k))
    (hnn : NodupNames rootdir) :
    find_candidates σd σf rootdir min_file_size_mb forceencode skip_mime =
      find_candidates σd' σf' rootdir min_file_size_mb forceencode skip_mime := by
  unfold find_candidates
  rw [walkTree_oracle_irrel σd σf σd' σf' hd hf hd' hf' rootdir hnn []]

/-- Witness for claim C7 on a two-level tree scanned once in stored
order and once in reversed order. -/
theorem claim_C7_witness :
    find_candidates identityEnum identityEnum
      (FsTree.node "r"
        [FsTree.node "a" [] [⟨"u.mkv", some 209715200, some true, true, false, false⟩],
         FsTree.node "b" [] []]
        [⟨"x.mkv", some 209715200, some true, true, false, false⟩,
         ⟨"y.mkv", some 1048576, some true, true, false, false⟩])
      50 false true =
    find_candidates reverseEnum reverseEnum
      (FsTree.node "r"
        [FsTree.node "a" [] [⟨"u.mkv", some 209715200, some true, true, false, false⟩],
         FsTree.node "b" [] []]
        [⟨"x.mkv", some 209715200, some true, true, false, false⟩,
         ⟨"y.mkv", some 1048576, some true, true, false, false⟩])
      50 false true :=
  claim_C7 identityEnum identityEnum reverseEnum reverseEnum
    (FsTree.node "r"
      [FsTree.node "a" [] [⟨"u.mkv", some 209715200, some true, true, false, false⟩],
       FsTree.node "b" [] []]
      [⟨"x.mkv", some 209715200, some true, true, false, false⟩,
       ⟨"y.mkv", some 1048576, some true, true, false, false⟩])
    50 false true
    (fun _ _ => List.Perm.refl _) (fun _ _ => List.Perm.refl _)
    (fun _ _ => List.reverse_perm _) (fun _ _ => List.reverse_perm _)
    (by
      refine NodupNames.node (by decide) (by decide) ?_
      intro t ht
      rcases List.mem_cons.mp ht with h1 | h2
      · subst h1
        refine NodupNames.node (by decide) (by decide) ?_
        intro u hu
        exact absurd hu (List.not_mem_nil u)
      · rcases List.mem_cons.mp h2 with h3 | h4
        · subst h3
          refine NodupNames.node (by decide) (by decide) ?_
          intro u hu
          exact absurd hu (List.not_mem_nil u)
        · exact absurd h4 (List.not_mem_nil t))

/-- Claim C2, counterexample: a run whose single job is classified
NoGain (enum member NOT_SMALLER) returns minus two, not zero, because
the NoGain outcome code is negative in the source enum. -/
theorem claim_C2_counterexample :
    (run { main_loop_running := true } alwaysTrueFlag
        [ConversionProcessResult.NOT_SMALLER] false false false true).2.1 = -2 ∧
    ((-2 : ℤ) ≠ 0) := by
  constructor
  · decide
  · decide

/-- Claim C2 as amended: the value returned by a job-executing run with
no stop request and no abort-on-error is the sum of the per-job outcome
codes, where Done contributes zero, NoGain contributes minus two and the
Failed variants contribute minus one or minus three; consequently a run
in which every job ends Done returns zero. -/
theorem claim_C2_amended (gs : GlobalState) (flagAt : Nat → Bool)
    (results : List ConversionProcessResult) (signalling : Bool)
    (hflag : ∀ i, flagAt i = true) (hne : results ≠ []) :
    (run gs flagAt results false false false signalling).2.1 =
      (results.map ConversionProcessResult.code).sum ∧
    (run gs flagAt results false false false signalling).2.2 = results.length ∧
    ConversionProcessResult.OK.code = 0 ∧
    ConversionProcessResult.NOT_SMALLER.code = -2 ∧
    ConversionProcessResult.NON_ZERO.code = -1 ∧
    ConversionProcessResult.ORIGINAL_MISSING.code = -3 ∧
    ((∀ r ∈ results, r = ConversionProcessResult.OK) →
      (run gs flagAt results false false false signalling).2.1 = 0) := by
  have hre : results.isEmpty = false := by
    cases results with
    | nil => exact absurd rfl hne
    | cons a l => rfl
  have hrun : (run gs flagAt results false false false signalling).2 =
      ((results.map ConversionProcessResult.code).sum, results.length) := by
    rw [run]
    rw [hre]
    simp only [Bool.false_eq_true, if_false, runJobLoop_flag_true flagAt hflag results 0 0,
      zero_add]
  refine ⟨by rw [hrun], by rw [hrun], rfl, rfl, rfl, rfl, ?_⟩
  intro hok
  rw [hrun]
  simpa using code_sum_all_ok results hok

/-- Witness for claim C2 at a concrete all-Done run of two jobs. -/
theorem claim_C2_amended_witness :
    (run { main_loop_running := true } alwaysTrueFlag
        [ConversionProcessResult.OK, ConversionProcessResult.OK] false false false true).2.1 =
      (([ConversionProcessResult.OK,
         ConversionProcessResult.OK].map ConversionProcessResult.code).sum) ∧
    (run { main_loop_running := true } alwaysTrueFlag
        [ConversionProcessResult.OK, ConversionProcessResult.OK] false false false true).2.2 = 2 ∧
    ConversionProcessResult.OK.code = 0 ∧
    ConversionProcessResult.NOT_SMALLER.code = -2 ∧
    ConversionProcessResult.NON_ZERO.code = -1 ∧
    ConversionProcessResult.ORIGINAL_MISSING.code = -3 ∧
    ((∀ r ∈ [ConversionProcessResult.OK, ConversionProcessResult.OK],
        r = ConversionProcessResult.OK) →
      (run { main_loop_running := true } alwaysTrueFlag
        [ConversionProcessResult.OK, ConversionProcessResult.OK] false false false true).2.1 = 0) :=
  claim_C2_amended { main_loop_running := true } alwaysTrueFlag
    [ConversionProcessResult.OK, ConversionProcessResult.OK] true
    (fun _ => rfl) (by simp)

/-- Claim C8: the stop flag is read once at the top of each loop
iteration; when it reads true before every job up to i and false at the
read before job i, exactly the first i jobs are started and their codes
alone form the aggregate return value. -/
theorem claim_C8 (gs : GlobalState) (flagAt : Nat → Bool)
    (results : List ConversionProcessResult) (signalling : Bool) (i : Nat)
    (hbefore : ∀ j, j < i → flagAt j = true) (hstop : flagAt i = false)
    (hlen : i ≤ results.length) (hne : results ≠ []) :
    (run gs flagAt results false false false signalling).2.2 = i ∧
    (run gs flagAt results false false false signalling).2.1 =
      ((results.take i).map ConversionProcessResult.code).sum := by
  have hre : results.isEmpty = false := by
    cases results with
    | nil => exact absurd rfl hne
    | cons a l => rfl
  have hb : ∀ j, j < i → flagAt (0 + j) = true := by
    intro j hj
    simpa using hbefore j hj
  have hs : flagAt (0 + i) = false := by simpa using hstop
  have hrun : (run gs flagAt results false false false signalling).2 =
      (((results.take i).map ConversionProcessResult.code).sum, i) := by
    rw [run]
    rw [hre]
    simp only [Bool.false_eq_true, if_false,
      runJobLoop_stop flagAt i results 0 0 hb hs hlen, zero_add]
  exact ⟨by rw [hrun], by rw [hrun]⟩

/-- Witness for claim C8: the stop request lands before job 3 of 5, so
two jobs run and the aggregate is their code sum. -/
theorem claim_C8_witness :
    (run { main_loop_running := true } (stopAtFlag 2)
        [ConversionProcessResult.OK, ConversionProcessResult.NON_ZERO,
         ConversionProcessResult.OK, ConversionProcessResult.OK,
         ConversionProcessResult.OK] false false false true).2.2 = 2 ∧
    (run { main_loop_running := true } (stopAtFlag 2)
        [ConversionProcessResult.OK, ConversionProcessResult.NON_ZERO,
         ConversionProcessResult.OK, ConversionProcessResult.OK,
         ConversionProcessResult.OK] false false false true).2.1 =
      ((([ConversionProcessResult.OK, ConversionProcessResult.NON_ZERO,
          ConversionProcessResult.OK, ConversionProcessResult.OK,
          ConversionProcessResult.OK].take 2).map ConversionProcessResult.code).sum) :=
  claim_C8 { main_loop_running := true } (stopAtFlag 2)
    [ConversionProcessResult.OK, ConversionProcessResult.NON_ZERO,
     ConversionProcessResult.OK, ConversionProcessResult.OK,
     ConversionProcessResult.OK] true 2
    (fun j hj => by simp [stopAtFlag]; omega) (by simp [stopAtFlag]) (by simp) (by simp)

/-- Claim C10: the module flag starts true; every job-executing run with
signalling clears it; run never sets it back to true; hence a second
job-executing call in the same process finds it false, starts no job and
returns zero. -/
theorem claim_C10 :
    main_loop_running = true ∧
    (∀ (gs : GlobalState) (flagAt : Nat → Bool) (results : List ConversionProcessResult)
        (ab : Bool), results ≠ [] →
      (run gs flagAt results false false ab true).1.main_loop_running = false) ∧
    (∀ (gs : GlobalState) (flagAt : Nat → Bool) (results : List ConversionProcessResult)
        (jl os ab sig : Bool),
      (run gs flagAt results jl os ab sig).1.main_loop_running = true →
      gs.main_loop_running = true) ∧
    (∀ (gs : GlobalState) (flagAt : Nat → Bool) (results : List ConversionProcessResult)
        (ab : Bool),
      gs.main_loop_running = false →
      (∀ i, flagAt i = true → gs.main_loop_running = true) →
      results ≠ [] →
      (run gs flagAt results false false ab true).2 = (0, 0)) := by
  refine ⟨rfl, ?_, ?_, ?_⟩
  · intro gs flagAt results ab hne
    have hre : results.isEmpty = false := by
      cases results with
      | nil => exact absurd rfl hne
      | cons a l => rfl
    rw [run, hre]
    simp
  · intro gs flagAt results jl os ab sig h
    rw [run] at h
    by_cases h1 : results.isEmpty = true
    · rwa [if_pos h1] at h
    · rw [if_neg h1] at h
      by_cases h2 : jl = true
      · rwa [if_pos h2] at h
      · rw [if_neg h2] at h
        by_cases h3 : os = true
        · rwa [if_pos h3] at h
        · rw [if_neg h3] at h
          by_cases h4 : sig = true
          · rw [h4] at h
            simp at h
          · simp only [h4, Bool.false_eq_true, if_neg, if_false] at h
            exact h
  · intro gs flagAt results ab hgs hmono hne
    have hre : results.isEmpty = false := by
      cases results with
      | nil => exact absurd rfl hne
      | cons a l => rfl
    have hf0 : flagAt 0 = false := by
      cases hb : flagAt 0 with
      | false => rfl
      | true => rw [hmono 0 hb] at hgs; cases hgs
    cases results with
    | nil => exact absurd rfl hne
    | cons r rest =>
      rw [run, hre]
      simp only [Bool.false_eq_true, if_false]
      rw [runJobLoop, hf0]
      simp

/-- Witness for claim C10: a second call with the flag already cleared
runs no job and returns zero. -/
theorem claim_C10_witness :
    (run { main_loop_running := false } alwaysFalseFlag
        [ConversionProcessResult.OK] false false false true).2 = (0, 0) :=
  claim_C10.2.2.2 { main_loop_running := false } alwaysFalseFlag
    [ConversionProcessResult.OK] false rfl
    (fun i h => by simp [alwaysFalseFlag] at h) (by simp)

end MediaVideoTools
